import Mathlib

/-!
Verification of the system-offset estimation core (sysoff.c).

The C source is shallowly embedded: machine signed 64-bit arithmetic is
modelled by unbounded Int (C signed overflow is undefined behaviour, so
every defined C execution agrees with the Int model), C integer division
and remainder are Int.tdiv and Int.tmod (truncation toward zero), and the
device driver behind the ioctl / poll / read system calls is modelled as
an explicit Device record describing, for one concrete scenario, whether
each request succeeds and the data it returns.  Each embedded function
also returns the list of externally visible events it performs (device
requests and log lines), so that claims about which requests are issued
and which diagnostics are emitted can be stated.
-/

/-- struct ptp_clock_time (linux/ptp_clock.h): a seconds / nanoseconds pair.
In C sec is __s64 and nsec is __u32; we keep both as Int and, where the code
stores into nsec, reduce modulo 2^32 as the u32 assignment does. -/
structure ptp_clock_time where
  sec : Int
  nsec : Int
deriving Repr, DecidableEq

def NS_PER_SEC : Int := 1000000000

def NS_PER_MSEC : Int := 1000000

/-- pctns (sysoff.c lines 32-35): t->sec * NS_PER_SEC + t->nsec. -/
def pctns (t : ptp_clock_time) : Int := t.sec * NS_PER_SEC + t.nsec

/-- nspct (sysoff.c lines 37-41): pct->sec = t / NS_PER_SEC (C truncating
division); pct->nsec = t % NS_PER_SEC, stored into a __u32 field, hence the
reduction modulo 2^32. -/
def nspct (t : Int) : ptp_clock_time :=
  { sec := Int.tdiv t NS_PER_SEC, nsec := (Int.tmod t NS_PER_SEC) % 4294967296 }

/-- Modelled from the spec: the method ids of sysoff.h, which is not under
src/.  The failure sentinel is -1 and the methods follow in fallback
priority order (Cross, Precise, Extended, Basic), with LAST one past the
end; this is forced by the probe loop `for (i = SYSOFF_CROSS + 1;
i < SYSOFF_LAST; i++)` together with the spec's priority order. -/
def SYSOFF_RUN_TIME_MISSING : Int := -1

def SYSOFF_CROSS : Int := 0

def SYSOFF_PRECISE : Int := 1

def SYSOFF_EXTENDED : Int := 2

def SYSOFF_BASIC : Int := 3

def SYSOFF_LAST : Int := 4

/-- PTP_MAX_SAMPLES from linux/ptp_clock.h: the kernel's maximum number of
offset samples per request. -/
def PTP_MAX_SAMPLES : Int := 25

/-- The three locals of sysoff_estimate holding the running best sample:
shortest_interval is returned through *delay, best_timestamp through *ts,
and best_offset is the return value. -/
structure Estimate where
  offset : Int
  ts : Int
  delay : Int
deriving Repr, DecidableEq

/-- The midpoint expression (t2 + t1) / 2 of sysoff.c lines 128 and 142,
with C truncating division. -/
def sysoffMid (t1 t2 : Int) : Int := Int.tdiv (t2 + t1) 2

/-- The bracket (t1, tp, t2) that sysoff_estimate reads for sample i:
device timestamps at indices (3i, 3i+1, 3i+2) in extended mode (sysoff.c
lines 118-121, 132-135) and at overlapping indices (2i, 2i+1, 2i+2) in
basic mode (lines 122-126, 136-140), each converted by pctns. -/
def bracketAt (pct : Nat → ptp_clock_time) (extended : Bool) (i : Nat) :
    Int × Int × Int :=
  if extended then
    (pctns (pct (3 * i)), pctns (pct (3 * i + 1)), pctns (pct (3 * i + 2)))
  else
    (pctns (pct (2 * i)), pctns (pct (2 * i + 1)), pctns (pct (2 * i + 2)))

/-- The candidate values sysoff_estimate computes for sample i:
interval = t2 - t1, timestamp = (t2 + t1) / 2, offset = timestamp - tp
(sysoff.c lines 127-129 and 141-143). -/
def candAt (pct : Nat → ptp_clock_time) (extended : Bool) (i : Nat) :
    Estimate :=
  let b := bracketAt pct extended i
  { offset := sysoffMid b.1 b.2.2 - b.2.1
    ts := sysoffMid b.1 b.2.2
    delay := b.2.2 - b.1 }

/-- The comparison of sysoff.c lines 144-148: a candidate replaces the
running best exactly when its interval is strictly smaller. -/
def selStep (b c : Estimate) : Estimate := if c.delay < b.delay then c else b

/-- One iteration of the selection loop (sysoff.c lines 131-149). -/
def estStep (pct : Nat → ptp_clock_time) (extended : Bool)
    (b : Estimate) (i : Nat) : Estimate :=
  selStep b (candAt pct extended i)

/-- sysoff_estimate (sysoff.c lines 110-153): seed the best sample from
triplet 0, then scan i = 1 .. n_samples-1 in index order keeping the sample
with the strictly smallest interval.  For n_samples <= 1 the loop body does
not run, exactly as the C for-loop. -/
def sysoff_estimate (pct : Nat → ptp_clock_time) (extended : Bool)
    (n_samples : Int) : Estimate :=
  (List.range' 1 (n_samples - 1).toNat).foldl (estStep pct extended)
    (candAt pct extended 0)

/-- struct ptp_extts_event_cross (kernel header, not under src/).  Modelled
from the spec: a fixed-size record with a device timestamp t, a system
timestamp tstamp, and flags encoding a validity bit (PTP_EVENT_CROSS) and
an embedded delay sub-field (PTP_EVENT_CROSS_DELAY); the two flag
components are modelled directly. -/
structure CrossEvent where
  t : ptp_clock_time
  tstamp : Int
  cross : Bool
  crossDelay : Int
deriving Repr, DecidableEq

/-- Modelled from the spec: the device driver and its control-request
transport are external collaborators (opaque synchronous calls that either
succeed and fill a fixed-size record, or fail).  A Device value fixes one
behaviour: whether each request succeeds, the data a successful request
returns, and what the event-stream poll and read deliver. -/
structure Device where
  crossReqOk : Bool
  preciseOk : Bool
  preciseDev : ptp_clock_time
  preciseSys : ptp_clock_time
  extendedOk : Bool
  extendedTs : Nat → Nat → ptp_clock_time
  basicOk : Bool
  basicTs : Nat → ptp_clock_time
  pollRet : Int
  readRet : Int
  readEvents : Nat → CrossEvent

/-- sizeof(struct ptp_extts_event_cross).  The record is fixed-size; the
exact byte count is irrelevant to the control flow, it only has to be
positive.  Fixed at 32 bytes. -/
def crossEventSize : Nat := 32

/-- Externally visible actions of the core: device requests, the event
stream poll and read, and the diagnostics channels (pr_debug, perror, and
the prober's fprintf(stderr, ...) warnings).  Log messages carry the format
string of the corresponding C call. -/
inductive Event where
  | ioctlPrecise : Event
  | ioctlExtended : Int → Event
  | ioctlBasic : Int → Event
  | ioctlCrossReq : ptp_clock_time → Event
  | pollEv : Event
  | readEv : Event
  | logDebug : String → Event
  | logPerror : String → Event
  | logWarning : String → Event
deriving Repr, DecidableEq

/-- Requests a sampler issues to the device: the three measurement ioctls
plus the event-stream poll and read.  The cross-timestamp arming request is
issued by the enabler, not a sampler, and is excluded. -/
def isSamplerReq : Event → Bool
  | Event.ioctlPrecise => true
  | Event.ioctlExtended _ => true
  | Event.ioctlBasic _ => true
  | Event.pollEv => true
  | Event.readEv => true
  | _ => false

/-- Any interaction with the device: every request, including arming. -/
def isDeviceReq : Event → Bool
  | Event.ioctlCrossReq _ => true
  | e => isSamplerReq e

/-- The out-parameters *result, *ts and *delay shared by the samplers; ts
is a uint64_t in C and holds the two's-complement image of the signed
best_timestamp, modelled as the Int value itself. -/
structure Outs where
  result : Int
  ts : Int
  delay : Int
deriving Repr, DecidableEq

/-- Modelled from the spec (section 4.5): on a successful
PTP_SYS_OFFSET_EXTENDED request the device fills 3 * n_samples device
timestamps (n independent triplets) into the array that sysoff_extended
memset to zero (sysoff.c line 159); the rest of the array stays zero. -/
def extArrayAfter (dev : Device) (n : Int) : Nat → ptp_clock_time :=
  fun m => if (m : Int) < 3 * n then dev.extendedTs (m / 3) (m % 3)
           else { sec := 0, nsec := 0 }

/-- Modelled from the spec (section 4.7): on a successful PTP_SYS_OFFSET
request the device fills 2 * n_samples + 1 device timestamps (overlapping
layout) into the array that sysoff_basic memset to zero (sysoff.c line
173); the rest of the array stays zero. -/
def basicArrayAfter (dev : Device) (n : Int) : Nat → ptp_clock_time :=
  fun m => if (m : Int) < 2 * n + 1 then dev.basicTs m
           else { sec := 0, nsec := 0 }

/-- sysoff_precise (sysoff.c lines 43-54): one PTP_SYS_OFFSET_PRECISE
request; on success result = pctns(sys_realtime) - pctns(device) and
ts = pctns(sys_realtime); on failure a debug log and the generic
SYSOFF_RUN_TIME_MISSING, leaving the out-parameters untouched. -/
def sysoff_precise (dev : Device) (o : Outs) : Int × Outs × List Event :=
  if dev.preciseOk then
    (SYSOFF_PRECISE,
     { o with result := pctns dev.preciseSys - pctns dev.preciseDev
              ts := pctns dev.preciseSys },
     [Event.ioctlPrecise])
  else
    (SYSOFF_RUN_TIME_MISSING, o,
     [Event.ioctlPrecise, Event.logDebug "ioctl PTP_SYS_OFFSET_PRECISE: %m"])

/-- sysoff_cross (sysoff.c lines 56-94): zero-timeout poll, then read; fail
with SYSOFF_RUN_TIME_MISSING when the poll reports no data, the read fails,
or the read delivers fewer bytes than one record; otherwise use only the
last complete record of the buffer, fail if its PTP_EVENT_CROSS flag is
unset, and on success result = pctns(event->t) - event->tstamp,
ts = pctns(event->t), delay = PTP_EVENT_CROSS_DELAY(event->flags). -/
def sysoff_cross (dev : Device) (o : Outs) : Int × Outs × List Event :=
  if dev.pollRet < 1 then
    (SYSOFF_RUN_TIME_MISSING, o,
     [Event.pollEv, Event.logDebug "poll sysoff_cross: %m"])
  else if dev.readRet < 0 then
    (SYSOFF_RUN_TIME_MISSING, o,
     [Event.pollEv, Event.readEv, Event.logDebug "read sysoff_cross: %m"])
  else if dev.readRet < (crossEventSize : Int) then
    (SYSOFF_RUN_TIME_MISSING, o,
     [Event.pollEv, Event.readEv, Event.logDebug "invalid event size"])
  else
    let num := dev.readRet.toNat / crossEventSize
    let event := dev.readEvents (num - 1)
    if event.cross = false then
      (SYSOFF_RUN_TIME_MISSING, o,
       [Event.pollEv, Event.readEv, Event.logDebug "invalid event flags"])
    else
      (SYSOFF_CROSS,
       { result := pctns event.t - event.tstamp
         ts := pctns event.t
         delay := event.crossDelay },
       [Event.pollEv, Event.readEv])

/-- sysoff_cross_enable (sysoff.c lines 96-108): arm periodic
cross-timestamping with the given period converted by nspct. -/
def sysoff_cross_enable (dev : Device) (period : Int) : Int × List Event :=
  if dev.crossReqOk then
    (SYSOFF_CROSS, [Event.ioctlCrossReq (nspct period)])
  else
    (SYSOFF_RUN_TIME_MISSING,
     [Event.ioctlCrossReq (nspct period),
      Event.logDebug "ioctl PTP_CROSSTS_REQUEST: %m"])

/-- sysoff_extended (sysoff.c lines 155-167): one PTP_SYS_OFFSET_EXTENDED
request; on success delegate to sysoff_estimate with stride 3 over the
filled array; on failure a debug log and SYSOFF_RUN_TIME_MISSING. -/
def sysoff_extended (dev : Device) (n_samples : Int) (o : Outs) :
    Int × Outs × List Event :=
  if dev.extendedOk then
    let e := sysoff_estimate (extArrayAfter dev n_samples) true n_samples
    (SYSOFF_EXTENDED,
     { result := e.offset, ts := e.ts, delay := e.delay },
     [Event.ioctlExtended n_samples])
  else
    (SYSOFF_RUN_TIME_MISSING, o,
     [Event.ioctlExtended n_samples,
      Event.logDebug "ioctl PTP_SYS_OFFSET_EXTENDED: %m"])

/-- sysoff_basic (sysoff.c lines 169-181): one PTP_SYS_OFFSET request; on
success delegate to sysoff_estimate with stride 2 over the filled array; on
failure a perror diagnostic (the verbatim system error, the one sampler not
using the debug log) and the same generic SYSOFF_RUN_TIME_MISSING. -/
def sysoff_basic (dev : Device) (n_samples : Int) (o : Outs) :
    Int × Outs × List Event :=
  if dev.basicOk then
    let e := sysoff_estimate (basicArrayAfter dev n_samples) false n_samples
    (SYSOFF_BASIC,
     { result := e.offset, ts := e.ts, delay := e.delay },
     [Event.ioctlBasic n_samples])
  else
    (SYSOFF_RUN_TIME_MISSING, o,
     [Event.ioctlBasic n_samples, Event.logPerror "ioctl PTP_SYS_OFFSET"])

/-- sysoff_measure (sysoff.c lines 183-199): route the method id to its
sampler, force-zeroing *delay first for the Cross and Precise cases;
unknown method ids report SYSOFF_RUN_TIME_MISSING. -/
def sysoff_measure (dev : Device) (method : Int) (n_samples : Int)
    (o : Outs) : Int × Outs × List Event :=
  if method = SYSOFF_CROSS then
    sysoff_cross dev { o with delay := 0 }
  else if method = SYSOFF_PRECISE then
    sysoff_precise dev { o with delay := 0 }
  else if method = SYSOFF_EXTENDED then
    sysoff_extended dev n_samples o
  else if method = SYSOFF_BASIC then
    sysoff_basic dev n_samples o
  else
    (SYSOFF_RUN_TIME_MISSING, o, [])

/-- The prober's fallback loop (sysoff.c lines 218-222): try method ids
from i upward via sysoff_measure, returning the first i whose measurement
does not fail; the fuel counts the ids still to try, so the loop stops at
SYSOFF_LAST exactly as `for (i = SYSOFF_CROSS + 1; i < SYSOFF_LAST; i++)`
does. -/
def probeLoop (dev : Device) (n_samples : Int) :
    Nat → Int → Outs → Int × List Event
  | 0, _, _ => (SYSOFF_RUN_TIME_MISSING, [])
  | fuel + 1, i, o =>
    let r := sysoff_measure dev i n_samples o
    if r.1 < 0 then
      let r2 := probeLoop dev n_samples fuel (i + 1) r.2.1
      (r2.1, r.2.2 ++ r2.2)
    else
      (i, r.2.2)

/-- sysoff_probe (sysoff.c lines 201-225).  The C locals junk, ts and delay
are uninitialized and never influence the returned method id; they are
modelled as zeros. -/
def sysoff_probe (dev : Device) (n_samples : Int) : Int × List Event :=
  if n_samples > PTP_MAX_SAMPLES then
    (SYSOFF_RUN_TIME_MISSING,
     [Event.logWarning "warning: %d exceeds kernel max readings %d",
      Event.logWarning "falling back to clock_gettime method"])
  else
    let period := 1 * NS_PER_MSEC
    let r := sysoff_cross_enable dev period
    if r.1 ≥ 0 then
      (SYSOFF_CROSS, r.2)
    else
      let r2 := probeLoop dev n_samples
        (SYSOFF_LAST - (SYSOFF_CROSS + 1)).toNat (SYSOFF_CROSS + 1)
        { result := 0, ts := 0, delay := 0 }
      (r2.1, r.2 ++ r2.2)

/-- A bracketed sample: two system-clock readings t1 and t2 around one
hardware-clock reading tp, as laid out by the extended (stride-3)
measurement. -/
structure Sample where
  t1 : Int
  tp : Int
  t2 : Int
deriving Repr, DecidableEq

/-- The bracket width t2 - t1 of a sample. -/
def intervalOf (s : Sample) : Int := s.t2 - s.t1

/-- The candidate values the selector computes for one sample. -/
def sampleCand (s : Sample) : Estimate :=
  { offset := sysoffMid s.t1 s.t2 - s.tp
    ts := sysoffMid s.t1 s.t2
    delay := s.t2 - s.t1 }

/-- The selection loop as a fold over a list of already-computed
candidates: the accumulator is replaced exactly when a candidate has a
strictly smaller interval. -/
def minFold (b : Estimate) (cs : List Estimate) : Estimate :=
  cs.foldl selStep b

/-- Encode a list of samples as a device-timestamp array in the extended
(stride-3, independent triplets) layout read by sysoff_estimate: index
3i holds t1, 3i+1 holds tp, 3i+2 holds t2 of sample i; indices past the
samples read as zero. -/
def toPct (l : List Sample) : Nat → ptp_clock_time :=
  fun m =>
    if h : m / 3 < l.length then
      let s := l.get ⟨m / 3, h⟩
      if m % 3 = 0 then { sec := 0, nsec := s.t1 }
      else if m % 3 = 1 then { sec := 0, nsec := s.tp }
      else { sec := 0, nsec := s.t2 }
    else { sec := 0, nsec := 0 }

/-- Index of the selected sample among indices 0..k under the selector's
rule: strictly smaller interval wins, ties keep the earlier index. -/
def bestIdx (f : Nat → Int) : Nat → Nat
  | 0 => 0
  | k + 1 => if f (k + 1) < f (bestIdx f k) then k + 1 else bestIdx f k

/-- The spec's worked example for the selector, in the extended layout:
samples (t1=100, tp=150, t2=300) and (t1=1000, tp=1040, t2=1100). -/
def pctEx : Nat → ptp_clock_time :=
  toPct [{ t1 := 100, tp := 150, t2 := 300 },
         { t1 := 1000, tp := 1040, t2 := 1100 }]

/-- A device on which every request fails and the event stream is empty. -/
def devNone : Device :=
  { crossReqOk := false
    preciseOk := false
    preciseDev := { sec := 0, nsec := 0 }
    preciseSys := { sec := 0, nsec := 0 }
    extendedOk := false
    extendedTs := fun _ _ => { sec := 0, nsec := 0 }
    basicOk := false
    basicTs := fun _ => { sec := 0, nsec := 0 }
    pollRet := 0
    readRet := 0
    readEvents := fun _ => { t := { sec := 0, nsec := 0 }, tstamp := 0,
                             cross := false, crossDelay := 0 } }

/-- A device whose cross-timestamp arming succeeds. -/
def devCrossArm : Device := { devNone with crossReqOk := true }

/-- A device supporting only the Precise method, with the spec's example
data: system time 5,000,000,000 ns and device time 4,999,999,950 ns. -/
def devPrecise : Device :=
  { devNone with
      preciseOk := true
      preciseDev := { sec := 4, nsec := 999999950 }
      preciseSys := { sec := 5, nsec := 0 } }

/-- A device whose event stream delivers 3 back-to-back cross records in
one 96-byte read; only the last one is valid and carries the data. -/
def devCrossRead : Device :=
  { devNone with
      pollRet := 1
      readRet := 96
      readEvents := fun i =>
        if i = 2 then
          { t := { sec := 7, nsec := 100 }, tstamp := 7000000060,
            cross := true, crossDelay := 25 }
        else
          { t := { sec := 1, nsec := 0 }, tstamp := 999999999,
            cross := true, crossDelay := 77 } }

/-- A device supporting only the Basic method; the single device timestamp
written for a zero-sample request is 100 ns. -/
def devBasic : Device :=
  { devNone with
      basicOk := true
      basicTs := fun _ => { sec := 0, nsec := 100 } }

/-- A device supporting only the Extended method. -/
def devExtended : Device := { devNone with extendedOk := true }

theorem bestIdx_le (f : Nat → Int) (k : Nat) : bestIdx f k ≤ k := by
  induction k with
  | zero => simp [bestIdx]
  | succ k ih =>
    unfold bestIdx
    split
    · exact Nat.le_refl _
    · exact Nat.le_succ_of_le ih

theorem bestIdx_min (f : Nat → Int) (k : Nat) :
    ∀ i ≤ k, f (bestIdx f k) ≤ f i := by
  induction k with
  | zero =>
    intro i hi
    interval_cases i
    simp [bestIdx]
  | succ k ih =>
    intro i hi
    unfold bestIdx
    split
    · rename_i hlt
      rcases Nat.lt_succ_iff_lt_or_eq.mp (Nat.lt_succ_of_le hi) with h | h
      · exact le_of_lt (lt_of_lt_of_le hlt (ih i (Nat.lt_succ_iff.mp h)))
      · exact le_of_eq (congrArg f h.symm)
    · rename_i hge
      rcases Nat.lt_succ_iff_lt_or_eq.mp (Nat.lt_succ_of_le hi) with h | h
      · exact ih i (Nat.lt_succ_iff.mp h)
      · subst h
        exact not_lt.mp hge

theorem bestIdx_first (f : Nat → Int) (k : Nat) :
    ∀ i < bestIdx f k, f (bestIdx f k) < f i := by
  induction k with
  | zero =>
    intro i hi
    simp [bestIdx] at hi
  | succ k ih =>
    intro i hi
    unfold bestIdx at hi ⊢
    split
    · rename_i hlt
      split at hi
      · exact lt_of_lt_of_le hlt (bestIdx_min f k i (Nat.lt_succ_iff.mp hi))
      · exact absurd hlt (by assumption)
    · rename_i hge
      split at hi
      · exact absurd (by assumption) hge
      · exact ih i hi

theorem estimate_fold_eq (pct : Nat → ptp_clock_time) (ext : Bool)
    (k : Nat) :
    (List.range' 1 k).foldl (estStep pct ext) (candAt pct ext 0) =
      candAt pct ext (bestIdx (fun i => (candAt pct ext i).delay) k) := by
  induction k with
  | zero => simp [bestIdx]
  | succ k ih =>
    rw [List.range'_concat, List.foldl_append, ih]
    simp only [List.foldl_cons, List.foldl_nil, estStep, selStep, bestIdx]
    have h1k : 1 + 1 * k = k + 1 := by omega
    rw [h1k]
    split
    · rfl
    · rfl

theorem minFold_le_seed (cs : List Estimate) :
    ∀ b : Estimate, (minFold b cs).delay ≤ b.delay := by
  induction cs with
  | nil => intro b; simp [minFold]
  | cons c cs ih =>
    intro b
    simp only [minFold, List.foldl_cons] at *
    refine le_trans (ih (selStep b c)) ?_
    simp only [selStep]
    split
    · exact le_of_lt (by assumption)
    · exact le_refl _

theorem minFold_le_mem (cs : List Estimate) :
    ∀ (b c : Estimate), c ∈ cs → (minFold b cs).delay ≤ c.delay := by
  induction cs with
  | nil => intro b c hc; simp at hc
  | cons x cs ih =>
    intro b c hc
    simp only [minFold, List.foldl_cons] at *
    rcases List.mem_cons.mp hc with h | h
    · subst h
      refine le_trans (minFold_le_seed cs (selStep b c)) ?_
      simp only [selStep]
      split
      · exact le_refl _
      · exact not_lt.mp (by assumption)
    · exact ih (selStep b x) c h

theorem minFold_seed_irrel (cs : List Estimate) :
    ∀ x y : Estimate, (∃ c ∈ cs, c.delay < x.delay ∧ c.delay < y.delay) →
      minFold x cs = minFold y cs := by
  induction cs with
  | nil =>
    intro x y h
    rcases h with ⟨c, hc, _⟩
    simp at hc
  | cons a cs ih =>
    intro x y h
    rcases h with ⟨c, hc, hcx, hcy⟩
    simp only [minFold, List.foldl_cons]
    by_cases hax : a.delay < x.delay
    · by_cases hay : a.delay < y.delay
      · simp only [selStep, if_pos hax, if_pos hay]
      · -- c cannot be a (else a.delay < y.delay); c is in cs
        have hca : c ≠ a := by
          intro he
          exact hay (he ▸ hcy)
        have hcs : c ∈ cs := by
          rcases List.mem_cons.mp hc with h | h
          · exact absurd h hca
          · exact h
        simp only [selStep, if_pos hax, if_neg hay]
        exact ih a y ⟨c, hcs, lt_of_lt_of_le hcy (not_lt.mp hay), hcy⟩
    · by_cases hay : a.delay < y.delay
      · have hca : c ≠ a := by
          intro he
          exact hax (he ▸ hcx)
        have hcs : c ∈ cs := by
          rcases List.mem_cons.mp hc with h | h
          · exact absurd h hca
          · exact h
        simp only [selStep, if_neg hax, if_pos hay]
        exact ih x a ⟨c, hcs, hcx, lt_of_lt_of_le hcx (not_lt.mp hax)⟩
      · have hca : c ≠ a := by
          intro he
          exact hax (he ▸ hcx)
        have hcs : c ∈ cs := by
          rcases List.mem_cons.mp hc with h | h
          · exact absurd h hca
          · exact h
        simp only [selStep, if_neg hax, if_neg hay]
        exact ih x y ⟨c, hcs, hcx, hcy⟩

theorem minFold_insert (b s : Estimate) (cs1 cs2 : List Estimate)
    (h : b.delay < s.delay ∨ ∃ c ∈ cs1 ++ cs2, c.delay < s.delay) :
    minFold b (cs1 ++ s :: cs2) = minFold b (cs1 ++ cs2) := by
  simp only [minFold, List.foldl_append, List.foldl_cons]
  by_cases hlt : s.delay < (List.foldl selStep b cs1).delay
  · have hstep : selStep (List.foldl selStep b cs1) s = s := by
      simp [selStep, hlt]
    rw [hstep]
    -- the overall minimum is below s, and it cannot sit in b or cs1,
    -- because those are all at or above the cs1-fold, which is above s
    have hwit : ∃ c ∈ cs2, c.delay < s.delay := by
      rcases h with hb | ⟨c, hc, hcd⟩
      · exact absurd (lt_of_lt_of_le hlt (minFold_le_seed cs1 b)) (not_lt.mpr (le_of_lt hb))
      · rcases List.mem_append.mp hc with h1 | h2
        · exact absurd (lt_of_lt_of_le hlt (minFold_le_mem cs1 b c h1)) (not_lt.mpr (le_of_lt hcd))
        · exact ⟨c, h2, hcd⟩
    rcases hwit with ⟨c, hc2, hcd⟩
    exact minFold_seed_irrel cs2 s (List.foldl selStep b cs1)
      ⟨c, hc2, hcd, lt_trans hcd hlt⟩
  · have hstep : selStep (List.foldl selStep b cs1) s =
        List.foldl selStep b cs1 := by
      simp [selStep, hlt]
    rw [hstep]

theorem pctns_zero_sec (v : Int) : pctns { sec := 0, nsec := v } = v := by
  simp [pctns, NS_PER_SEC]

theorem toPct_cand (l : List Sample) (i : Nat) (h : i < l.length) :
    candAt (toPct l) true i = sampleCand (l.get ⟨i, h⟩) := by
  have h0 : (3 * i) / 3 = i := by omega
  have h0' : (3 * i) % 3 = 0 := by omega
  have h1 : (3 * i + 1) / 3 = i := by omega
  have h1' : (3 * i + 1) % 3 = 1 := by omega
  have h2 : (3 * i + 2) / 3 = i := by omega
  have h2' : (3 * i + 2) % 3 = 2 := by omega
  simp only [candAt, bracketAt, if_pos rfl, toPct, h0, h0', h1, h1', h2, h2',
    dif_pos h, sampleCand]
  norm_num [pctns_zero_sec]

theorem fold_bridge (pct : Nat → ptp_clock_time) (rest : List Sample) :
    ∀ (s : Nat) (b : Estimate),
      (∀ i (h : i < rest.length),
        candAt pct true (s + i) = sampleCand (rest.get ⟨i, h⟩)) →
      (List.range' s rest.length).foldl (estStep pct true) b =
        minFold b (rest.map sampleCand) := by
  induction rest with
  | nil =>
    intro s b _
    simp [minFold]
  | cons x xs ih =>
    intro s b hp
    have hlen : (x :: xs).length = xs.length + 1 := rfl
    rw [hlen, List.range'_succ, List.foldl_cons]
    have hx : candAt pct true s = sampleCand x := by
      have := hp 0 (by simp)
      simpa using this
    have hstep : estStep pct true b s = selStep b (sampleCand x) := by
      rw [estStep, hx]
    rw [hstep]
    have hrec := ih (s + 1) (selStep b (sampleCand x)) ?_
    · rw [hrec]
      simp [minFold]
    · intro i hi
      have := hp (i + 1) (by simpa using Nat.succ_lt_succ hi)
      have harith : s + (i + 1) = s + 1 + i := by omega
      rw [harith] at this
      simpa using this

theorem estimate_toPct (a : Sample) (rest : List Sample) :
    sysoff_estimate (toPct (a :: rest)) true ((a :: rest).length : Int) =
      minFold (sampleCand a) (rest.map sampleCand) := by
  have hn : (((a :: rest).length : Int) - 1).toNat = rest.length := by
    simp only [List.length_cons]
    omega
  rw [sysoff_estimate, hn]
  have hseed : candAt (toPct (a :: rest)) true 0 = sampleCand a := by
    have := toPct_cand (a :: rest) 0 (by simp)
    simpa using this
  rw [hseed]
  refine fold_bridge (toPct (a :: rest)) rest 1 (sampleCand a) ?_
  intro i hi
  have h' : 1 + i < (a :: rest).length := by simp; omega
  have := toPct_cand (a :: rest) (1 + i) h'
  rw [this]
  congr 1
  have hidx : (1 + i) = i + 1 := by omega
  simp [List.get, hidx]

theorem minFold_cons (b c : Estimate) (cs : List Estimate) :
    minFold b (c :: cs) = minFold (selStep b c) cs := rfl

theorem sampleCand_delay (s : Sample) : (sampleCand s).delay = intervalOf s := rfl

/-- C1: for n_samples >= 1, sysoff_estimate reads sample i's bracket at
indices (3i, 3i+1, 3i+2) in extended mode and (2i, 2i+1, 2i+2) in basic
mode (the definition of candAt / bracketAt), and returns the candidate
triple (offset = mid - hw, timestamp = mid, delay = interval) of the sample
with the smallest interval, choosing the lowest index on exact ties. -/
theorem sysoff_estimate_selects_min (pct : Nat → ptp_clock_time) (ext : Bool)
    (n : Int) (h : 1 ≤ n) :
    ∃ j : Nat, (j : Int) < n ∧
      sysoff_estimate pct ext n = candAt pct ext j ∧
      (∀ k : Nat, (k : Int) < n →
        (candAt pct ext j).delay ≤ (candAt pct ext k).delay) ∧
      (∀ k : Nat, k < j →
        (candAt pct ext j).delay < (candAt pct ext k).delay) := by
  refine ⟨bestIdx (fun i => (candAt pct ext i).delay) ((n - 1).toNat),
    ?_, ?_, ?_, ?_⟩
  · have hle := bestIdx_le (fun i => (candAt pct ext i).delay) ((n - 1).toNat)
    omega
  · exact estimate_fold_eq pct ext ((n - 1).toNat)
  · intro k hk
    exact bestIdx_min (fun i => (candAt pct ext i).delay) ((n - 1).toNat) k
      (by omega)
  · intro k hk
    exact bestIdx_first (fun i => (candAt pct ext i).delay) ((n - 1).toNat) k hk

/-- Witness for C1 at the spec's worked example: two extended-layout
samples (100, 150, 300) and (1000, 1040, 1100). -/
theorem sysoff_estimate_selects_min_witness :
    (1 : Int) ≤ 2 ∧
    ∃ j : Nat, (j : Int) < 2 ∧
      sysoff_estimate pctEx true 2 = candAt pctEx true j ∧
      (∀ k : Nat, (k : Int) < 2 →
        (candAt pctEx true j).delay ≤ (candAt pctEx true k).delay) ∧
      (∀ k : Nat, k < j →
        (candAt pctEx true j).delay < (candAt pctEx true k).delay) :=
  ⟨by norm_num, sysoff_estimate_selects_min pctEx true 2 (by norm_num)⟩

/-- Sanity check of the spec's worked example: intervals 200 and 100, the
second sample wins, timestamp (1000 + 1100) / 2 = 1050, offset 10,
delay 100. -/
theorem sysoff_estimate_spec_example :
    sysoff_estimate pctEx true 2 = { offset := 10, ts := 1050, delay := 100 } := by
  decide

/-- C2: inserting a sample s whose interval is strictly wider than some
existing sample's interval (in particular, wider than the minimum) at any
position of a non-empty sample sequence leaves the selector's returned
(offset, timestamp, delay) triple unchanged. -/
theorem sysoff_estimate_insert_wider (l1 l2 : List Sample) (s : Sample)
    (hne : l1 ++ l2 ≠ [])
    (hw : ∃ c ∈ l1 ++ l2, intervalOf c < intervalOf s) :
    sysoff_estimate (toPct (l1 ++ s :: l2)) true ((l1 ++ s :: l2).length : Int) =
      sysoff_estimate (toPct (l1 ++ l2)) true ((l1 ++ l2).length : Int) := by
  cases l1 with
  | nil =>
    simp only [List.nil_append] at hne hw ⊢
    cases l2 with
    | nil => simp at hne
    | cons b2 t2 =>
      rw [estimate_toPct s (b2 :: t2), estimate_toPct b2 t2]
      rw [List.map_cons, minFold_cons]
      by_cases hlt : (sampleCand b2).delay < (sampleCand s).delay
      · rw [show selStep (sampleCand s) (sampleCand b2) = sampleCand b2 from
          by simp [selStep, hlt]]
      · rw [show selStep (sampleCand s) (sampleCand b2) = sampleCand s from
          by simp [selStep, hlt]]
        rcases hw with ⟨c, hc, hcd⟩
        have hcb : c ≠ b2 := fun he => hlt (he ▸ hcd)
        have hct : c ∈ t2 := by
          rcases List.mem_cons.mp hc with h | h
          · exact absurd h hcb
          · exact h
        refine minFold_seed_irrel (t2.map sampleCand) (sampleCand s)
          (sampleCand b2) ⟨sampleCand c, List.mem_map_of_mem sampleCand hct,
            ?_, ?_⟩
        · rw [sampleCand_delay, sampleCand_delay]; exact hcd
        · rw [sampleCand_delay, sampleCand_delay]
          have := not_lt.mp hlt
          rw [sampleCand_delay, sampleCand_delay] at this
          omega
  | cons a l1' =>
    have e1 : (a :: l1') ++ s :: l2 = a :: (l1' ++ s :: l2) := rfl
    have e2 : (a :: l1') ++ l2 = a :: (l1' ++ l2) := rfl
    rw [e1, e2, estimate_toPct a (l1' ++ s :: l2), estimate_toPct a (l1' ++ l2)]
    rw [List.map_append, List.map_cons, List.map_append]
    apply minFold_insert
    rcases hw with ⟨c, hc, hcd⟩
    have hc3 : c = a ∨ c ∈ l1' ∨ c ∈ l2 := by simpa using hc
    rcases hc3 with h | h | h
    · left
      rw [sampleCand_delay, sampleCand_delay, ← h]
      exact hcd
    · right
      exact ⟨sampleCand c,
        List.mem_append.mpr (Or.inl (List.mem_map_of_mem sampleCand h)), hcd⟩
    · right
      exact ⟨sampleCand c,
        List.mem_append.mpr (Or.inr (List.mem_map_of_mem sampleCand h)), hcd⟩

/-- Witness for C2: inserting the strictly wider sample (0, 10, 500) of
interval 500 between two samples of intervals 200 and 100 leaves the
selected triple unchanged. -/
theorem sysoff_estimate_insert_wider_witness :
    ([({ t1 := 100, tp := 150, t2 := 300 } : Sample)] ++
       [({ t1 := 1000, tp := 1040, t2 := 1100 } : Sample)] ≠ []) ∧
    (∃ c ∈ [({ t1 := 100, tp := 150, t2 := 300 } : Sample)] ++
       [({ t1 := 1000, tp := 1040, t2 := 1100 } : Sample)],
        intervalOf c < intervalOf { t1 := 0, tp := 10, t2 := 500 }) ∧
    sysoff_estimate
        (toPct ([({ t1 := 100, tp := 150, t2 := 300 } : Sample)] ++
          ({ t1 := 0, tp := 10, t2 := 500 } : Sample) ::
          [{ t1 := 1000, tp := 1040, t2 := 1100 }])) true
        (([({ t1 := 100, tp := 150, t2 := 300 } : Sample)] ++
          ({ t1 := 0, tp := 10, t2 := 500 } : Sample) ::
          [{ t1 := 1000, tp := 1040, t2 := 1100 }]).length : Int) =
      sysoff_estimate
        (toPct ([({ t1 := 100, tp := 150, t2 := 300 } : Sample)] ++
          [{ t1 := 1000, tp := 1040, t2 := 1100 }])) true
        (([({ t1 := 100, tp := 150, t2 := 300 } : Sample)] ++
          [({ t1 := 1000, tp := 1040, t2 := 1100 } : Sample)]).length : Int) :=
  ⟨by decide, by decide,
   sysoff_estimate_insert_wider
     [{ t1 := 100, tp := 150, t2 := 300 }]
     [{ t1 := 1000, tp := 1040, t2 := 1100 }]
     { t1 := 0, tp := 10, t2 := 500 } (by decide) (by decide)⟩

/-- C7: for a DeviceTimestamp with non-negative seconds and nanoseconds in
the normalized range, converting to a signed nanosecond count and back
reproduces both fields: nspct (pctns t) = t. -/
theorem nspct_pctns_roundtrip (t : ptp_clock_time) (hs : 0 ≤ t.sec)
    (hn0 : 0 ≤ t.nsec) (hn1 : t.nsec < NS_PER_SEC) :
    nspct (pctns t) = t := by
  obtain ⟨s, nn⟩ := t
  simp only [NS_PER_SEC] at hn1
  simp only at hs hn0
  have hpos : 0 ≤ s * 1000000000 + nn := by
    have : 0 ≤ s * 1000000000 := by positivity
    omega
  simp only [nspct, pctns, NS_PER_SEC]
  rw [Int.tdiv_eq_ediv hpos (by norm_num), Int.tmod_eq_emod hpos (by norm_num)]
  simp only [ptp_clock_time.mk.injEq]
  constructor
  · omega
  · omega

/-- Witness for C7 at t = (5 s, 999999999 ns). -/
theorem nspct_pctns_roundtrip_witness :
    (0 : Int) ≤ 5 ∧ (0 : Int) ≤ 999999999 ∧ (999999999 : Int) < NS_PER_SEC ∧
    nspct (pctns { sec := 5, nsec := 999999999 }) =
      { sec := 5, nsec := 999999999 } :=
  ⟨by norm_num, by norm_num, by norm_num [NS_PER_SEC],
   nspct_pctns_roundtrip { sec := 5, nsec := 999999999 }
     (by norm_num) (by norm_num) (by norm_num [NS_PER_SEC])⟩

/-- C9 counterexample: at before = -3, after = 0 (odd, negative sum) the
code's midpoint (0 + (-3)) / 2 evaluates to -1, not to the
half-interval-toward-the-earlier-instant value (0 + (-3) - 1) / 2 = -2, so
the claim's truncation direction fails for negative timestamps. -/
theorem sysoffMid_negative_cex :
    sysoffMid (-3) 0 = -1 ∧ ¬ (2 * sysoffMid (-3) 0 = 0 + (-3) - 1) := by
  decide

/-- C9 amended: for an odd sum the code's midpoint (after + before) / 2
truncates toward zero: toward the earlier instant by half the interval when
the sum is non-negative, and toward the later instant by half the interval
when the sum is negative. -/
theorem sysoffMid_odd_truncation (t1 t2 : Int) (hodd : (t2 + t1) % 2 ≠ 0) :
    (0 ≤ t2 + t1 → 2 * sysoffMid t1 t2 = t2 + t1 - 1) ∧
    (t2 + t1 < 0 → 2 * sysoffMid t1 t2 = t2 + t1 + 1) := by
  constructor
  · intro h
    rw [sysoffMid, Int.tdiv_eq_ediv h (by norm_num)]
    omega
  · intro h
    have hneg : Int.tdiv (t2 + t1) 2 = -(Int.tdiv (-(t2 + t1)) 2) := by
      rw [Int.neg_tdiv, neg_neg]
    rw [sysoffMid, hneg, Int.tdiv_eq_ediv (by omega) (by norm_num)]
    omega

/-- Witness for C9's amended statement at sums 1101 and -1101. -/
theorem sysoffMid_odd_truncation_witness :
    2 * sysoffMid 100 1001 = 1100 ∧ 2 * sysoffMid (-100) (-1001) = -1100 := by
  constructor
  · have h := (sysoffMid_odd_truncation 100 1001 (by decide)).1 (by decide)
    omega
  · have h := (sysoffMid_odd_truncation (-100) (-1001) (by decide)).2 (by decide)
    omega

/-- C4: when n_samples exceeds the kernel maximum, sysoff_probe returns
SYSOFF_RUN_TIME_MISSING immediately, emits the warning to stderr, and
performs no device interaction at all. -/
theorem sysoff_probe_oversize (dev : Device) (n : Int)
    (h : PTP_MAX_SAMPLES < n) :
    sysoff_probe dev n =
      (SYSOFF_RUN_TIME_MISSING,
       [Event.logWarning "warning: %d exceeds kernel max readings %d",
        Event.logWarning "falling back to clock_gettime method"]) ∧
    ∀ e ∈ (sysoff_probe dev n).2, isDeviceReq e = false := by
  have heq : sysoff_probe dev n =
      (SYSOFF_RUN_TIME_MISSING,
       [Event.logWarning "warning: %d exceeds kernel max readings %d",
        Event.logWarning "falling back to clock_gettime method"]) := by
    rw [sysoff_probe, if_pos h]
  refine ⟨heq, ?_⟩
  rw [heq]
  decide

/-- Witness for C4: a request for 100 samples against the kernel maximum of
25. -/
theorem sysoff_probe_oversize_witness :
    PTP_MAX_SAMPLES < (100 : Int) ∧
    sysoff_probe devNone 100 =
      (SYSOFF_RUN_TIME_MISSING,
       [Event.logWarning "warning: %d exceeds kernel max readings %d",
        Event.logWarning "falling back to clock_gettime method"]) :=
  ⟨by decide, (sysoff_probe_oversize devNone 100 (by decide)).1⟩

/-- C6: through sysoff_measure with the Precise method, a successful
measurement returns offset = pctns(systemTime) - pctns(deviceTime),
timestamp = pctns(systemTime) and delay = 0 (force-zeroed by the
dispatcher); a failed request reports the generic
SYSOFF_RUN_TIME_MISSING. -/
theorem sysoff_measure_precise_spec (dev : Device) (n : Int) (o : Outs) :
    (dev.preciseOk = true →
      sysoff_measure dev SYSOFF_PRECISE n o =
        (SYSOFF_PRECISE,
         { result := pctns dev.preciseSys - pctns dev.preciseDev
           ts := pctns dev.preciseSys
           delay := 0 },
         [Event.ioctlPrecise])) ∧
    (dev.preciseOk = false →
      sysoff_measure dev SYSOFF_PRECISE n o =
        (SYSOFF_RUN_TIME_MISSING, { o with delay := 0 },
         [Event.ioctlPrecise,
          Event.logDebug "ioctl PTP_SYS_OFFSET_PRECISE: %m"])) := by
  constructor <;> intro h <;>
    simp [sysoff_measure, sysoff_precise, h, SYSOFF_PRECISE, SYSOFF_CROSS]

/-- Witness for C6 at the spec's example: system time 5,000,000,000 ns and
device time 4,999,999,950 ns give offset 50 and delay 0. -/
theorem sysoff_measure_precise_witness :
    devPrecise.preciseOk = true ∧
    sysoff_measure devPrecise SYSOFF_PRECISE 1
        { result := 7, ts := 7, delay := 7 } =
      (SYSOFF_PRECISE, { result := 50, ts := 5000000000, delay := 0 },
       [Event.ioctlPrecise]) := by
  refine ⟨rfl, ?_⟩
  have h := (sysoff_measure_precise_spec devPrecise 1
    { result := 7, ts := 7, delay := 7 }).1 rfl
  rw [h]
  decide

/-- C5: the Cross sampler fails with SYSOFF_RUN_TIME_MISSING whenever the
zero-timeout poll reports no data, the read fails, the read delivers fewer
bytes than one record, or the last complete record's validity flag is
unset; otherwise its whole output is computed from the last complete record
of the read buffer alone. -/
theorem sysoff_cross_spec (dev : Device) (o : Outs) :
    ((dev.pollRet < 1 ∨ dev.readRet < 0 ∨
        dev.readRet < (crossEventSize : Int) ∨
        (dev.readEvents (dev.readRet.toNat / crossEventSize - 1)).cross =
          false) →
      (sysoff_cross dev o).1 = SYSOFF_RUN_TIME_MISSING) ∧
    (1 ≤ dev.pollRet → (crossEventSize : Int) ≤ dev.readRet →
      (dev.readEvents (dev.readRet.toNat / crossEventSize - 1)).cross =
        true →
      sysoff_cross dev o =
        (SYSOFF_CROSS,
         { result :=
             pctns (dev.readEvents
               (dev.readRet.toNat / crossEventSize - 1)).t -
             (dev.readEvents (dev.readRet.toNat / crossEventSize - 1)).tstamp
           ts := pctns (dev.readEvents
               (dev.readRet.toNat / crossEventSize - 1)).t
           delay := (dev.readEvents
               (dev.readRet.toNat / crossEventSize - 1)).crossDelay },
         [Event.pollEv, Event.readEv])) := by
  constructor
  · intro h
    rw [sysoff_cross]
    by_cases h1 : dev.pollRet < 1
    · rw [if_pos h1]
    · rw [if_neg h1]
      by_cases h2 : dev.readRet < 0
      · rw [if_pos h2]
      · rw [if_neg h2]
        by_cases h3 : dev.readRet < (crossEventSize : Int)
        · rw [if_pos h3]
        · rw [if_neg h3]
          have h4 : (dev.readEvents
              (dev.readRet.toNat / crossEventSize - 1)).cross = false := by
            rcases h with h | h | h | h
            · exact absurd h h1
            · exact absurd h h2
            · exact absurd h h3
            · exact h
          simp only [h4, if_pos]
  · intro h1 h2 h3
    rw [sysoff_cross, if_neg (not_lt.mpr h1),
      if_neg (not_lt.mpr (le_trans (by norm_num [crossEventSize]) h2)),
      if_neg (not_lt.mpr h2)]
    simp only [h3]
    rfl

/-- Witness for C5: a read delivering three back-to-back 32-byte records;
the sampler's output comes from the third record alone. -/
theorem sysoff_cross_spec_witness :
    (1 : Int) ≤ devCrossRead.pollRet ∧
    (crossEventSize : Int) ≤ devCrossRead.readRet ∧
    (devCrossRead.readEvents
      (devCrossRead.readRet.toNat / crossEventSize - 1)).cross = true ∧
    sysoff_cross devCrossRead { result := 0, ts := 0, delay := 0 } =
      (SYSOFF_CROSS, { result := 40, ts := 7000000100, delay := 25 },
       [Event.pollEv, Event.readEv]) := by
  refine ⟨by decide, by decide, by decide, ?_⟩
  have h := (sysoff_cross_spec devCrossRead
    { result := 0, ts := 0, delay := 0 }).2 (by decide) (by decide) (by decide)
  rw [h]
  decide

/-- C8 counterexample: with every request failing, the Basic sampler's
failing request yields the very same generic SYSOFF_RUN_TIME_MISSING code
as the Precise sampler's, contradicting the claim that Basic reports the
failure verbatim rather than a generic code unlike the other methods. -/
theorem sysoff_basic_generic_code_cex :
    (sysoff_basic devNone 5 { result := 0, ts := 0, delay := 0 }).1 =
      SYSOFF_RUN_TIME_MISSING ∧
    (sysoff_precise devNone { result := 0, ts := 0, delay := 0 }).1 =
      SYSOFF_RUN_TIME_MISSING := by
  decide

/-- C8 amended: every sampler, Basic included, returns the generic
SYSOFF_RUN_TIME_MISSING on request failure; the one asymmetry is the
diagnostic channel, Basic printing the system error verbatim via perror
while the other methods log at debug level. -/
theorem sysoff_failure_reporting (dev : Device) (n : Int) (o : Outs)
    (p : Int) :
    (dev.basicOk = false →
      sysoff_basic dev n o =
        (SYSOFF_RUN_TIME_MISSING, o,
         [Event.ioctlBasic n, Event.logPerror "ioctl PTP_SYS_OFFSET"])) ∧
    (dev.preciseOk = false →
      sysoff_precise dev o =
        (SYSOFF_RUN_TIME_MISSING, o,
         [Event.ioctlPrecise,
          Event.logDebug "ioctl PTP_SYS_OFFSET_PRECISE: %m"])) ∧
    (dev.extendedOk = false →
      sysoff_extended dev n o =
        (SYSOFF_RUN_TIME_MISSING, o,
         [Event.ioctlExtended n,
          Event.logDebug "ioctl PTP_SYS_OFFSET_EXTENDED: %m"])) ∧
    (dev.crossReqOk = false →
      sysoff_cross_enable dev p =
        (SYSOFF_RUN_TIME_MISSING,
         [Event.ioctlCrossReq (nspct p),
          Event.logDebug "ioctl PTP_CROSSTS_REQUEST: %m"])) ∧
    (dev.pollRet < 1 →
      sysoff_cross dev o =
        (SYSOFF_RUN_TIME_MISSING, o,
         [Event.pollEv, Event.logDebug "poll sysoff_cross: %m"])) := by
  refine ⟨?_, ?_, ?_, ?_, ?_⟩ <;> intro h <;>
    simp [sysoff_basic, sysoff_precise, sysoff_extended, sysoff_cross_enable,
      sysoff_cross, h]

/-- Witness for C8's amended statement on a device where every request
fails. -/
theorem sysoff_failure_reporting_witness :
    devNone.basicOk = false ∧
    sysoff_basic devNone 3 { result := 0, ts := 0, delay := 0 } =
      (SYSOFF_RUN_TIME_MISSING, { result := 0, ts := 0, delay := 0 },
       [Event.ioctlBasic 3, Event.logPerror "ioctl PTP_SYS_OFFSET"]) :=
  ⟨rfl, (sysoff_failure_reporting devNone 3
    { result := 0, ts := 0, delay := 0 } 0).1 rfl⟩

/-- C3: for n_samples within the kernel maximum, the prober returns Cross
as soon as arming periodic cross-timestamping with a 1 ms period succeeds,
issuing no sampler request at all; otherwise it invokes Precise, Extended
and Basic in exactly that order through sysoff_measure, returns the first
method that succeeds, and reports SYSOFF_RUN_TIME_MISSING when none
does. -/
theorem sysoff_probe_order (dev : Device) (n : Int)
    (h : n ≤ PTP_MAX_SAMPLES) :
    (sysoff_probe dev n).1 =
      (if dev.crossReqOk then SYSOFF_CROSS
       else if dev.preciseOk then SYSOFF_PRECISE
       else if dev.extendedOk then SYSOFF_EXTENDED
       else if dev.basicOk then SYSOFF_BASIC
       else SYSOFF_RUN_TIME_MISSING) ∧
    (dev.crossReqOk = true →
      (sysoff_probe dev n).2 =
        [Event.ioctlCrossReq (nspct (1 * NS_PER_MSEC))]) ∧
    (dev.crossReqOk = false →
      ((sysoff_probe dev n).2).filter isSamplerReq =
        [Event.ioctlPrecise] ++
        (if dev.preciseOk then [] else
          [Event.ioctlExtended n] ++
          (if dev.extendedOk then [] else [Event.ioctlBasic n]))) := by
  have hng : ¬ (n > PTP_MAX_SAMPLES) := not_lt.mpr h
  cases hc : dev.crossReqOk <;> cases hp : dev.preciseOk <;>
    cases he : dev.extendedOk <;> cases hb : dev.basicOk <;>
    simp [sysoff_probe, hng, sysoff_cross_enable, hc, hp, he, hb, probeLoop,
      sysoff_measure, sysoff_precise, sysoff_extended, sysoff_basic,
      isSamplerReq, SYSOFF_RUN_TIME_MISSING, SYSOFF_CROSS, SYSOFF_PRECISE,
      SYSOFF_EXTENDED, SYSOFF_BASIC, SYSOFF_LAST]

/-- Witness for C3: arming succeeds, the prober returns Cross having issued
only the arming request. -/
theorem sysoff_probe_order_witness :
    (10 : Int) ≤ PTP_MAX_SAMPLES ∧
    (sysoff_probe devCrossArm 10).1 = SYSOFF_CROSS ∧
    (sysoff_probe devCrossArm 10).2 =
      [Event.ioctlCrossReq (nspct (1 * NS_PER_MSEC))] := by
  have h := sysoff_probe_order devCrossArm 10 (by decide)
  refine ⟨by decide, ?_, h.2.1 rfl⟩
  rw [h.1]
  rfl

/-- C10 counterexample: with n_samples = 0 a successful Basic request
reports success, but its result is not the one derived from a
zero-initialized first triplet (offset 0, timestamp 0, delay 0): the
device's single written timestamp (100 ns) lands in the triplet's first
slot, giving offset 50, timestamp 50, delay -100. -/
theorem sysoff_basic_zero_samples_cex :
    (sysoff_basic devBasic 0 { result := 0, ts := 0, delay := 0 }).1 =
      SYSOFF_BASIC ∧
    ¬ ((sysoff_basic devBasic 0 { result := 0, ts := 0, delay := 0 }).2.1 =
      { result := 0, ts := 0, delay := 0 }) := by
  decide

/-- C10 amended: for n_samples <= 1 (including 0 and negative values) the
selection loop never runs and the result is computed solely from the first
triplet; an Extended measurement succeeding with n_samples = 0 reports
success with the all-zero first triplet's result (offset 0, timestamp 0,
delay 0), while a Basic measurement succeeding with n_samples = 0 reports
success with the result of a first triplet whose first entry is the single
device-written timestamp and whose other two entries are zero. -/
theorem sysoff_estimate_few_samples :
    (∀ (pct : Nat → ptp_clock_time) (ext : Bool) (n : Int), n ≤ 1 →
      sysoff_estimate pct ext n = candAt pct ext 0) ∧
    (∀ (dev : Device) (o : Outs), dev.extendedOk = true →
      sysoff_extended dev 0 o =
        (SYSOFF_EXTENDED, { result := 0, ts := 0, delay := 0 },
         [Event.ioctlExtended 0])) ∧
    (∀ (dev : Device) (o : Outs), dev.basicOk = true →
      sysoff_basic dev 0 o =
        (SYSOFF_BASIC,
         { result := Int.tdiv (pctns (dev.basicTs 0)) 2
           ts := Int.tdiv (pctns (dev.basicTs 0)) 2
           delay := -(pctns (dev.basicTs 0)) },
         [Event.ioctlBasic 0])) := by
  have hfirst : ∀ (pct : Nat → ptp_clock_time) (ext : Bool) (n : Int),
      n ≤ 1 → sysoff_estimate pct ext n = candAt pct ext 0 := by
    intro pct ext n hn
    have h0 : (n - 1).toNat = 0 := by omega
    rw [sysoff_estimate, h0]
    rfl
  refine ⟨hfirst, ?_, ?_⟩
  · intro dev o h
    rw [sysoff_extended, if_pos h, hfirst _ _ 0 (by norm_num)]
    simp [candAt, bracketAt, extArrayAfter, pctns, sysoffMid, NS_PER_SEC]
  · intro dev o h
    rw [sysoff_basic, if_pos h, hfirst _ _ 0 (by norm_num)]
    simp [candAt, bracketAt, basicArrayAfter, pctns, sysoffMid, NS_PER_SEC]

/-- Witness for C10's amended statement: the degenerate n = 0 runs on the
Extended and Basic samplers of concrete devices, and a one-sample estimate
over the worked-example array. -/
theorem sysoff_estimate_few_samples_witness :
    ((0 : Int) ≤ 1 ∧
      sysoff_estimate pctEx true 0 = candAt pctEx true 0) ∧
    (devExtended.extendedOk = true ∧
      sysoff_extended devExtended 0 { result := 9, ts := 9, delay := 9 } =
        (SYSOFF_EXTENDED, { result := 0, ts := 0, delay := 0 },
         [Event.ioctlExtended 0])) ∧
    (devBasic.basicOk = true ∧
      sysoff_basic devBasic 0 { result := 9, ts := 9, delay := 9 } =
        (SYSOFF_BASIC, { result := 50, ts := 50, delay := -100 },
         [Event.ioctlBasic 0])) := by
  refine ⟨⟨by norm_num, ?_⟩, ⟨rfl, ?_⟩, ⟨rfl, ?_⟩⟩
  · exact sysoff_estimate_few_samples.1 pctEx true 0 (by norm_num)
  · exact sysoff_estimate_few_samples.2.1 devExtended
      { result := 9, ts := 9, delay := 9 } rfl
  · have h := sysoff_estimate_few_samples.2.2 devBasic
      { result := 9, ts := 9, delay := 9 } rfl
    rw [h]
    decide
